import Mathlib

/-
Verification of the TextWorld TensorFlow environment adapter
(src/environments/tf_game_env.py): the command translator and the
reward-shaping engine with its recent-history fingerprint cache.

Conventions of the embedding:
- Python strings become Lean String; Python lists become Lean List.
- Python substring containment (the in operator) is pyIn.
- The per-process Python hash of a string is modelled as an arbitrary
  function fp : String -> Int supplied as a parameter; the sentinel value
  in the freshly constructed cache is the integer 0, exactly as in
  the constructor (self._hash_dsc = [0] * HASH_LIST_LENGTH).
- list.append(x) followed by list.pop(0) becomes cache_push.
- Fallible indexing (Python IndexError) becomes Option.
-/

/-- A converted TextWorld game state, mirroring the dictionary built by
TWGameEnv._conv_to_state. -/
structure GameState where
  score : Int
  done : Bool
  won : Bool
  lost : Bool
  obs : String
  description : String
  inventory : String
  admissible_commands : List String
  entities : List String

/-- Reward constant: REWARD_DICT win_lose_value. -/
def win_lose_value : Int := 100

/-- Reward constant: REWARD_DICT max_loop_pun. -/
def max_loop_pun : Int := 5

/-- Reward constant: REWARD_DICT change_reward. -/
def change_reward : Int := 1

/-- Reward constant: REWARD_DICT useless_act_pun. -/
def useless_act_pun : Int := 1

/-- Reward constant: REWARD_DICT verb_in_adm. -/
def verb_in_adm : Int := 1

/-- Length constant HASH_LIST_LENGTH. -/
def hash_list_length : Nat := 10

/-- Whether the character list a occurs at the start of b. -/
def listIsPre : List Char → List Char → Bool
  | [], _ => true
  | _ :: _, [] => false
  | a :: as, b :: bs => a == b && listIsPre as bs

/-- Whether the character list sub occurs contiguously anywhere inside s. -/
def listSub (sub : List Char) : List Char → Bool
  | [] => listIsPre sub []
  | c :: t => listIsPre sub (c :: t) || listSub sub t

/-- Python substring containment: sub in s. -/
def pyIn (sub s : String) : Bool := listSub sub.data s.data

/-- Index of the first occurrence of a character in a character list. -/
def find_char : List Char → Char → Option Nat
  | [], _ => none
  | c :: cs, t => if c == t then some 0 else (find_char cs t).map (· + 1)

/-- Python str.find for a single-character needle: first index or -1. -/
def py_find (s : String) (c : Char) : Int :=
  match find_char s.data c with
  | some i => (i : Int)
  | none => -1

/-- Python slice s[:i], including the negative-index convention. -/
def py_slice_to (s : String) (i : Int) : String :=
  if i < 0 then String.mk (s.data.take (s.data.length - (-i).toNat))
  else String.mk (s.data.take i.toNat)

/-- The verb token the reward engine extracts from an issued command:
cmd[: cmd.find(" ")] in _calc_reward. -/
def verb_of_cmd (cmd : String) : String := py_slice_to cmd (py_find cmd ' ')

/-- TWGameEnv._find_verb_in_list: count the admissible commands containing
verb as a substring and test whether the count is at least 1. -/
def find_verb_in_list (verb : String) (adm : List String) : Bool :=
  decide (1 ≤ adm.countP (fun a => pyIn verb a))

/-- TWGameEnv._calc_cache_changes: how many cache entries equal the most
recent (last) entry. -/
def calc_cache_changes (cache : List Int) : Nat :=
  cache.count (cache.getLastD 0)

/-- One ring-buffer update of _update_hash_cache: append the new
fingerprint, then pop the oldest (front) entry. -/
def cache_push (cache : List Int) (x : Int) : List Int :=
  (cache ++ [x]).drop 1

/-- TWGameEnv._update_hash_cache on the pair of buffers. -/
def update_hash_cache (dsc inv : List Int) (fpd fpi : Int) : List Int × List Int :=
  (cache_push dsc fpd, cache_push inv fpi)

/-- The number of matches of the bad-action list against the new
observation, as summed by the numpy expression in _calc_reward. -/
def bad_act_count (bad : List String) (ns : GameState) : Nat :=
  (bad.map (fun e => pyIn e ns.obs)).count true

/-- TWGameEnv._calc_reward, on the cache contents as they stand when it is
called (that is, after _update_hash_cache has already run this turn). -/
def calc_reward (dsc inv : List Int) (ns os : GameState) (cmd : String)
    (bad : List String) : Int :=
  let reward : Int := 0
  let reward := reward + (ns.score - os.score)
  let reward := if 1 ≤ bad_act_count bad ns then reward - useless_act_pun else reward
  let inv_change : Int := (calc_cache_changes inv : Int)
  let des_change : Int := (calc_cache_changes dsc : Int)
  let reward :=
    if inv_change ≤ 1 ∨ des_change ≤ 1 then reward + change_reward
    else reward - min (inv_change - 1) (min (des_change - 1) max_loop_pun)
  let reward :=
    if ns.won then reward + win_lose_value
    else if ns.lost then reward - win_lose_value
    else reward
  let reward :=
    if find_verb_in_list (verb_of_cmd cmd) ns.admissible_commands then
      reward + verb_in_adm
    else reward
  reward

/-- The reward-and-cache part of one _step call: first _update_hash_cache
appends the new fingerprints, then _calc_reward reads the updated buffers.
The Python hash is the parameter fp. -/
def step_reward_update (fp : String → Int) (dsc inv : List Int)
    (os ns : GameState) (cmd : String) (bad : List String) :
    Int × List Int × List Int :=
  let dsc2 := cache_push dsc (fp ns.description)
  let inv2 := cache_push inv (fp ns.inventory)
  (calc_reward dsc2 inv2 ns os cmd bad, dsc2, inv2)

/-- The flattened verb-object command list built in the constructor:
[v + " " + o for v in verbs for o in objs]. -/
def list_verbobj (verbs objs : List String) : List String :=
  verbs.bind (fun v => objs.map (fun o => v ++ " " ++ o))

/-- TWGameEnv._conv_to_cmd in flattened mode: index into the precomputed
list; an out-of-range index raises, modelled as none. -/
def conv_to_cmd_flat (verbs objs : List String) (i : Nat) : Option String :=
  (list_verbobj verbs objs).get? i

/-- TWGameEnv._conv_to_cmd in unflattened mode on the pair
(verb index, object index); object index 0 uses the empty object string;
an out-of-range list access raises, modelled as none. -/
def conv_to_cmd_pair (verbs objs : List String) (vi oi : Nat) : Option String :=
  match verbs.get? vi with
  | none => none
  | some verb =>
    if oi = 0 then some (verb ++ " " ++ "")
    else
      match objs.get? oi with
      | none => none
      | some obj => some (verb ++ " " ++ obj)

/-- The environment fields touched by the cache and reset logic. -/
structure TWGameEnv where
  hash_dsc : List Int
  hash_inv : List Int
  episode_ended : Bool
  state : Option GameState

/-- The cache-relevant part of TWGameEnv.__init__: both buffers start as
[0] * HASH_LIST_LENGTH, no episode running. -/
def env_init : TWGameEnv :=
  { hash_dsc := List.replicate hash_list_length 0
    hash_inv := List.replicate hash_list_length 0
    episode_ended := false
    state := none }

/-- TWGameEnv._start_game: registers a fresh engine and stores the state it
reports for the initial look command (the engine output is the parameter).
It does not touch the hash buffers. -/
def start_game (e : TWGameEnv) (s0 : GameState) : TWGameEnv :=
  { e with state := some s0 }

/-- TWGameEnv._reset: clear the episode-ended flag and start a new game. -/
def env_reset (e : TWGameEnv) (s0 : GameState) : TWGameEnv :=
  start_game { e with episode_ended := false } s0

/-- Score-delta addend of the reward. -/
def score_term (ns os : GameState) : Int := ns.score - os.score

/-- Bad-action addend of the reward. -/
def bad_act_term (bad : List String) (ns : GameState) : Int :=
  if 1 ≤ bad_act_count bad ns then -useless_act_pun else 0

/-- Loop/stagnation addend of the reward, on the updated buffers. -/
def loop_term (dsc inv : List Int) : Int :=
  let inv_change : Int := (calc_cache_changes inv : Int)
  let des_change : Int := (calc_cache_changes dsc : Int)
  if inv_change ≤ 1 ∨ des_change ≤ 1 then change_reward
  else -min (inv_change - 1) (min (des_change - 1) max_loop_pun)

/-- Terminal win/lose addend of the reward. -/
def terminal_term (ns : GameState) : Int :=
  if ns.won then win_lose_value else if ns.lost then -win_lose_value else 0

/-- Admissibility addend of the reward. -/
def adm_term (ns : GameState) (cmd : String) : Int :=
  if find_verb_in_list (verb_of_cmd cmd) ns.admissible_commands then verb_in_adm
  else 0

/-- The sequential accumulation of _calc_reward is the sum of its five
independent addends. -/
lemma calc_reward_decomp (dsc inv : List Int) (ns os : GameState)
    (cmd : String) (bad : List String) :
    calc_reward dsc inv ns os cmd bad =
      score_term ns os + bad_act_term bad ns + loop_term dsc inv +
        terminal_term ns + adm_term ns cmd := by
  unfold calc_reward score_term bad_act_term loop_term terminal_term adm_term
  by_cases hl : ((calc_cache_changes inv : Int) ≤ 1 ∨ (calc_cache_changes dsc : Int) ≤ 1)
  · simp only [hl, if_true]
    split_ifs <;> ring
  · simp only [hl, if_false]
    split_ifs <;> ring

/-- The last entry of a nonempty list is a member of it. -/
lemma getLastD_mem (l : List Int) (d : Int) (h : l ≠ []) : l.getLastD d ∈ l := by
  induction l generalizing d with
  | nil => simp at h
  | cons x t ih =>
    rw [List.getLastD_cons]
    cases t with
    | nil => simp
    | cons y u => exact List.mem_cons_of_mem x (ih x (List.cons_ne_nil y u))

/-- A ring-buffer push preserves the buffer length. -/
lemma cache_push_length (c : List Int) (x : Int) : (cache_push c x).length = c.length := by
  simp [cache_push]

/-- Folding pushes over a buffer drops as many front entries as were
appended. -/
lemma foldl_cache_push (fps c : List Int) :
    fps.foldl cache_push c = (c ++ fps).drop fps.length := by
  induction fps generalizing c with
  | nil => simp
  | cons x xs ih =>
    simp only [List.foldl_cons, List.length_cons, cache_push]
    rw [ih]
    rw [← List.drop_append_of_le_length (show 1 ≤ (c ++ [x]).length by simp)]
    rw [List.drop_drop]
    rw [Nat.add_comm 1 xs.length]
    simp

/-- The repeat count of a nonempty cache is at least one. -/
lemma calc_cache_changes_pos (c : List Int) (h : c ≠ []) : 1 ≤ calc_cache_changes c :=
  List.count_pos_iff.mpr (getLastD_mem c 0 h)

/-- C2: the recent-history cache is a strict fixed-size-10 FIFO ring: a push
appends one entry and evicts the oldest, the paired update keeps both
buffers at length 10, the initial buffers have length 10, and after 11
pushed fingerprints that are pairwise distinct the first one pushed is no
longer present. -/
theorem spec_c2 :
    (∀ (c : List Int) (x : Int), (cache_push c x).length = c.length)
    ∧ (∀ (dsc inv : List Int) (fpd fpi : Int),
        dsc.length = hash_list_length → inv.length = hash_list_length →
        (update_hash_cache dsc inv fpd fpi).1.length = hash_list_length ∧
        (update_hash_cache dsc inv fpd fpi).2.length = hash_list_length)
    ∧ env_init.hash_dsc.length = hash_list_length
    ∧ env_init.hash_inv.length = hash_list_length
    ∧ (∀ (f : Int) (rest : List Int),
        (f :: rest).length = 11 → (f :: rest).Nodup →
        f ∉ (f :: rest).foldl cache_push env_init.hash_dsc) := by
  refine ⟨cache_push_length, ?_, by simp [env_init], by simp [env_init], ?_⟩
  · intro dsc inv fpd fpi hd hi
    constructor
    · rw [show (update_hash_cache dsc inv fpd fpi).1 = cache_push dsc fpd from rfl]
      rw [cache_push_length, hd]
    · rw [show (update_hash_cache dsc inv fpd fpi).2 = cache_push inv fpi from rfl]
      rw [cache_push_length, hi]
  · intro f rest hlen hnd
    rw [foldl_cache_push]
    have hdrop : (env_init.hash_dsc ++ f :: rest).drop (f :: rest).length = rest := by
      rw [hlen]
      rw [show (11 : Nat) = 10 + 1 from rfl, ← List.drop_drop]
      rw [List.drop_append_of_le_length (by simp [env_init, hash_list_length])]
      simp [env_init, hash_list_length]
    rw [hdrop]
    exact (List.nodup_cons.mp hnd).1

/-- C10: the fingerprint ring buffers are created in the constructor and the
per-episode reset routine leaves both of them unchanged: it only clears the
episode-ended flag and installs the fresh engine state. -/
theorem spec_c10 : ∀ (e : TWGameEnv) (s0 : GameState),
    (env_reset e s0).hash_dsc = e.hash_dsc ∧
    (env_reset e s0).hash_inv = e.hash_inv ∧
    (env_reset e s0).episode_ended = false ∧
    (env_reset e s0).state = some s0 ∧
    env_init.hash_dsc = List.replicate hash_list_length 0 ∧
    env_init.hash_inv = List.replicate hash_list_length 0 := by
  intro e s0
  exact ⟨rfl, rfl, rfl, rfl, rfl, rfl⟩

/-- C4 fails as stated: translating the unflattened pair (0, 0) against the
verb list containing go yields the string go followed by a trailing space,
not the bare verb go. -/
theorem spec_c4_counterexample :
    conv_to_cmd_pair ["go"] ["", "north"] 0 0 = some "go " ∧
    conv_to_cmd_pair ["go"] ["", "north"] 0 0 ≠ some "go" := by
  exact ⟨rfl, by decide⟩

/-- C4 amended: for object index 0 the command is the verb followed by a
single trailing space character and no object token; for object index at
least 1 it is the verb, a space, and the object. -/
theorem spec_c4 : ∀ (verbs objs : List String) (v : Nat) (verb : String),
    verbs.get? v = some verb →
    (conv_to_cmd_pair verbs objs v 0 = some (verb ++ " ") ∧
     ∀ (o : Nat) (obj : String), 1 ≤ o → objs.get? o = some obj →
       conv_to_cmd_pair verbs objs v o = some (verb ++ " " ++ obj)) := by
  intro verbs objs v verb hv
  constructor
  · show (match verbs.get? v with
      | none => none
      | some verb =>
        if (0 : Nat) = 0 then some (verb ++ " " ++ "")
        else match objs.get? 0 with
          | none => none
          | some obj => some (verb ++ " " ++ obj)) = some (verb ++ " ")
    rw [hv]
    simp
  · intro o obj ho hobj
    have hne : o ≠ 0 := by omega
    show (match verbs.get? v with
      | none => none
      | some verb =>
        if o = 0 then some (verb ++ " " ++ "")
        else match objs.get? o with
          | none => none
          | some obj => some (verb ++ " " ++ obj)) = some (verb ++ " " ++ obj)
    rw [hv]
    have hobj2 : objs[o]? = some obj := by rw [← List.get?_eq_getElem?]; exact hobj
    simp [hne, hobj2]

/-- The flattened command list has one entry per verb-object pair. -/
lemma list_verbobj_length (vs os : List String) :
    (list_verbobj vs os).length = vs.length * os.length := by
  induction vs with
  | nil => simp [list_verbobj]
  | cons v t ih =>
    have hsplit : list_verbobj (v :: t) os =
        os.map (fun o => v ++ " " ++ o) ++ list_verbobj t os := by
      simp [list_verbobj]
    rw [hsplit, List.length_append, List.length_map, ih, List.length_cons]
    ring

/-- Verb-major lookup formula for the flattened command list. -/
lemma list_verbobj_get (vs os : List String) (i : Nat) (verb obj : String)
    (hnz : 0 < os.length)
    (hv : vs.get? (i / os.length) = some verb)
    (ho : os.get? (i % os.length) = some obj) :
    (list_verbobj vs os).get? i = some (verb ++ " " ++ obj) := by
  induction vs generalizing i with
  | nil => simp at hv
  | cons v t ih =>
    have hsplit : list_verbobj (v :: t) os =
        os.map (fun o => v ++ " " ++ o) ++ list_verbobj t os := by
      simp [list_verbobj]
    rw [hsplit]
    by_cases hi : i < os.length
    · have hdiv : i / os.length = 0 := Nat.div_eq_of_lt hi
      have hmod : i % os.length = i := Nat.mod_eq_of_lt hi
      rw [hdiv] at hv
      rw [hmod] at ho
      have hverb : verb = v := by
        simp [List.get?_cons_zero] at hv
        exact hv.symm
      rw [List.get?_append (by simpa using hi)]
      rw [List.get?_map, ho, hverb]
      rfl
    · push_neg at hi
      rw [List.get?_append_right (by simpa using hi)]
      simp only [List.length_map]
      have h1 : 1 ≤ i / os.length := (Nat.one_le_div_iff hnz).mpr hi
      have hdiv : (i - os.length) / os.length = i / os.length - 1 := by
        have := Nat.div_eq_sub_div hnz hi
        omega
      have hmod : (i - os.length) % os.length = i % os.length :=
        (Nat.mod_eq_sub_mod hi).symm
      apply ih
      · rw [hdiv]
        have : t.get? (i / os.length - 1) = (v :: t).get? (i / os.length) := by
          cases hk : i / os.length with
          | zero => omega
          | succ k => simp [List.get?_cons_succ]
        rw [this]
        exact hv
      · rw [hmod]
        exact ho

/-- C3: in flattened mode the translator equals the verb-major formula
verbs[i / nObjs] + a space + objs[i mod nObjs], and the index-to-pair map
is a bijection between valid flat indices and valid index pairs. -/
theorem spec_c3 : ∀ (verbs objs : List String),
    (∀ (i : Nat) (verb obj : String), 0 < objs.length →
      verbs.get? (i / objs.length) = some verb →
      objs.get? (i % objs.length) = some obj →
      conv_to_cmd_flat verbs objs i = some (verb ++ " " ++ obj))
    ∧ (∀ i j : Nat, i < verbs.length * objs.length → j < verbs.length * objs.length →
        i / objs.length = j / objs.length → i % objs.length = j % objs.length → i = j)
    ∧ (∀ v o : Nat, v < verbs.length → o < objs.length →
        ∃ i, i < verbs.length * objs.length ∧ i / objs.length = v ∧ i % objs.length = o) := by
  intro verbs objs
  refine ⟨?_, ?_, ?_⟩
  · intro i verb obj hnz hv ho
    exact list_verbobj_get verbs objs i verb obj hnz hv ho
  · intro i j hi hj hdiv hmod
    have h1 := (Nat.div_add_mod i objs.length).symm
    have h2 := (Nat.div_add_mod j objs.length).symm
    rw [hdiv, hmod] at h1
    rw [← h2] at h1
    exact h1
  · intro v o hv ho
    refine ⟨objs.length * v + o, ?_, ?_, ?_⟩
    · have hstep : objs.length * v + o < objs.length * (v + 1) := by
        rw [Nat.mul_succ]
        omega
      have hle : objs.length * (v + 1) ≤ objs.length * verbs.length :=
        Nat.mul_le_mul_left objs.length hv
      calc objs.length * v + o < objs.length * (v + 1) := hstep
        _ ≤ objs.length * verbs.length := hle
        _ = verbs.length * objs.length := Nat.mul_comm _ _
    · have hpos : 0 < objs.length := by omega
      rw [Nat.mul_add_div hpos, Nat.div_eq_of_lt ho, Nat.add_zero]
    · rw [Nat.mul_add_mod]
      exact Nat.mod_eq_of_lt ho

/-- C3 witness: concrete flattened lookup and bijection instance for the
vocabulary go, take times the empty object and north. -/
theorem spec_c3_witness :
    conv_to_cmd_flat ["go", "take"] ["", "north"] 3 = some ("take" ++ " " ++ "north")
    ∧ (3 : Nat) = 3
    ∧ (∃ i, i < 4 ∧ i / 2 = 1 ∧ i % 2 = 1) := by
  refine ⟨?_, ?_, ?_⟩
  · exact (spec_c3 ["go", "take"] ["", "north"]).1 3 "take" "north" (by decide)
      (by decide) (by decide)
  · exact (spec_c3 ["go", "take"] ["", "north"]).2.1 3 3 (by decide) (by decide) rfl rfl
  · exact (spec_c3 ["go", "take"] ["", "north"]).2.2 1 1 (by decide) (by decide)

/-- C5: any out-of-bounds action index makes the translator fail (none), in
both modes, while in-bounds flattened indices succeed; nothing is clamped. -/
theorem spec_c5 : ∀ (verbs objs : List String),
    (∀ i : Nat, verbs.length * objs.length ≤ i → conv_to_cmd_flat verbs objs i = none)
    ∧ (∀ i : Nat, i < verbs.length * objs.length →
        (conv_to_cmd_flat verbs objs i).isSome = true)
    ∧ (∀ vi oi : Nat, 1 ≤ objs.length →
        (verbs.length ≤ vi ∨ objs.length ≤ oi) →
        conv_to_cmd_pair verbs objs vi oi = none) := by
  intro verbs objs
  refine ⟨?_, ?_, ?_⟩
  · intro i h
    unfold conv_to_cmd_flat
    rw [List.get?_eq_none]
    rw [list_verbobj_length]
    exact h
  · intro i h
    unfold conv_to_cmd_flat
    rw [List.get?_eq_get (by rw [list_verbobj_length]; exact h)]
    rfl
  · intro vi oi hpos hor
    rcases hor with h | h
    · have hnone : verbs.get? vi = none := List.get?_eq_none.mpr h
      show (match verbs.get? vi with
        | none => none
        | some verb =>
          if oi = 0 then some (verb ++ " " ++ "")
          else match objs.get? oi with
            | none => none
            | some obj => some (verb ++ " " ++ obj)) = none
      rw [hnone]
    · have hne : oi ≠ 0 := by omega
      have hnone : objs.get? oi = none := List.get?_eq_none.mpr h
      show (match verbs.get? vi with
        | none => none
        | some verb =>
          if oi = 0 then some (verb ++ " " ++ "")
          else match objs.get? oi with
            | none => none
            | some obj => some (verb ++ " " ++ obj)) = none
      cases hvv : verbs.get? vi with
      | none => rfl
      | some verb =>
        have hnone2 : objs[oi]? = none := by
          rw [← List.get?_eq_getElem?]
          exact hnone
        simp [hne, hnone, hnone2]

/-- C2 witness: a concrete paired update keeps length 10, and after pushing
the eleven distinct fingerprints 1..11 the first one is gone. -/
theorem spec_c2_witness :
    (update_hash_cache (List.replicate 10 0) (List.replicate 10 0) 7 9).1.length =
      hash_list_length
    ∧ (1 : Int) ∉
        ([1, 2, 3, 4, 5, 6, 7, 8, 9, 10, 11] : List Int).foldl cache_push
          env_init.hash_dsc := by
  refine ⟨?_, ?_⟩
  · exact (spec_c2.2.1 (List.replicate 10 0) (List.replicate 10 0) 7 9
      (by decide) (by decide)).1
  · exact spec_c2.2.2.2.2 1 [2, 3, 4, 5, 6, 7, 8, 9, 10, 11] (by decide) (by decide)

/-- C4 witness: concrete commands for object index 0 and object index 1. -/
theorem spec_c4_witness :
    conv_to_cmd_pair ["go", "take"] ["", "north"] 0 0 = some ("go" ++ " ")
    ∧ conv_to_cmd_pair ["go", "take"] ["", "north"] 1 1 =
        some ("take" ++ " " ++ "north") := by
  refine ⟨?_, ?_⟩
  · exact (spec_c4 ["go", "take"] ["", "north"] 0 "go" rfl).1
  · exact (spec_c4 ["go", "take"] ["", "north"] 1 "take" rfl).2 1 "north"
      (by decide) rfl

/-- C5 witness: a concrete out-of-range flat index and pair fail while an
in-range flat index succeeds. -/
theorem spec_c5_witness :
    conv_to_cmd_flat ["go"] ["", "north"] 2 = none
    ∧ (conv_to_cmd_flat ["go"] ["", "north"] 1).isSome = true
    ∧ conv_to_cmd_pair ["go"] ["", "north"] 0 2 = none := by
  refine ⟨?_, ?_, ?_⟩
  · exact (spec_c5 ["go"] ["", "north"]).1 2 (by decide)
  · exact (spec_c5 ["go"] ["", "north"]).2.1 1 (by decide)
  · exact (spec_c5 ["go"] ["", "north"]).2.2 0 2 (by decide) (Or.inr (by decide))

/-- The numpy sum over the boolean match list is the count of bad-action
entries contained in the observation. -/
lemma bad_act_count_eq_countP (bad : List String) (ns : GameState) :
    bad_act_count bad ns = bad.countP (fun e => pyIn e ns.obs) := by
  induction bad with
  | nil => rfl
  | cons e t ih =>
    simp only [bad_act_count, List.map_cons, List.count_cons, List.countP_cons]
    rw [show ((t.map fun e => pyIn e ns.obs).count true) = bad_act_count t ns from rfl]
    rw [ih]
    cases he : pyIn e ns.obs <;> simp [he]

/-- At least one bad-action match happened exactly when some entry of the
list is contained in the observation. -/
lemma bad_act_count_pos_iff (bad : List String) (ns : GameState) :
    1 ≤ bad_act_count bad ns ↔ ∃ e ∈ bad, pyIn e ns.obs = true := by
  rw [bad_act_count_eq_countP]
  exact List.countP_pos_iff

/-- The admissibility test succeeds exactly when the verb is contained in
some admissible command. -/
lemma find_verb_in_list_iff (v : String) (adm : List String) :
    find_verb_in_list v adm = true ↔ ∃ a ∈ adm, pyIn v a = true := by
  unfold find_verb_in_list
  rw [decide_eq_true_iff]
  exact List.countP_pos_iff

/-- A base game state used by concrete witness instances. -/
def gs_base : GameState :=
  { score := 0
    done := false
    won := false
    lost := false
    obs := "you see nothing"
    description := "a plain room"
    inventory := "you are empty handed"
    admissible_commands := []
    entities := [] }

/-- C7: the bad-action penalty is a single fixed deduction applied exactly
once when at least one bad-action string is contained in the new
observation, and not at all otherwise, independent of how many entries
match. -/
theorem spec_c7 : ∀ (dsc inv : List Int) (ns os : GameState) (cmd : String)
    (bad : List String),
    ((∃ e ∈ bad, pyIn e ns.obs = true) →
      calc_reward dsc inv ns os cmd bad =
        score_term ns os + loop_term dsc inv + terminal_term ns + adm_term ns cmd
          - useless_act_pun)
    ∧ ((∀ e ∈ bad, pyIn e ns.obs = false) →
      calc_reward dsc inv ns os cmd bad =
        score_term ns os + loop_term dsc inv + terminal_term ns + adm_term ns cmd) := by
  intro dsc inv ns os cmd bad
  constructor
  · intro h
    rw [calc_reward_decomp]
    have hterm : bad_act_term bad ns = -useless_act_pun := by
      unfold bad_act_term
      rw [if_pos ((bad_act_count_pos_iff bad ns).mpr h)]
    rw [hterm]
    ring
  · intro h
    rw [calc_reward_decomp]
    have hterm : bad_act_term bad ns = 0 := by
      unfold bad_act_term
      rw [if_neg]
      intro hc
      obtain ⟨e, he, hp⟩ := (bad_act_count_pos_iff bad ns).mp hc
      rw [h e he] at hp
      exact absurd hp (by simp)
    rw [hterm]
    ring

/-- C7 witness: two simultaneous matches deduct the penalty once; no match
deducts nothing. -/
theorem spec_c7_witness :
    calc_reward (List.replicate 10 0) (List.replicate 10 0) gs_base gs_base
        "go north" ["nothing", "see"] =
      score_term gs_base gs_base + loop_term (List.replicate 10 0) (List.replicate 10 0)
        + terminal_term gs_base + adm_term gs_base "go north" - useless_act_pun
    ∧ calc_reward (List.replicate 10 0) (List.replicate 10 0) gs_base gs_base
        "go north" ["xyzzy"] =
      score_term gs_base gs_base + loop_term (List.replicate 10 0) (List.replicate 10 0)
        + terminal_term gs_base + adm_term gs_base "go north" := by
  refine ⟨?_, ?_⟩
  · exact (spec_c7 (List.replicate 10 0) (List.replicate 10 0) gs_base gs_base
      "go north" ["nothing", "see"]).1 (by decide)
  · exact (spec_c7 (List.replicate 10 0) (List.replicate 10 0) gs_base gs_base
      "go north" ["xyzzy"]).2 (by decide)

/-- C8: the reward contains the score delta as an additive term, and in the
neutral scenario with scores 5 to 8 the reward is exactly 4. -/
theorem spec_c8 :
    (∀ (dsc inv : List Int) (ns os : GameState) (cmd : String) (bad : List String),
      calc_reward dsc inv ns os cmd bad =
        (ns.score - os.score) + bad_act_term bad ns + loop_term dsc inv +
          terminal_term ns + adm_term ns cmd)
    ∧ (∀ (dsc inv : List Int) (ns os : GameState) (cmd : String) (bad : List String),
        os.score = 5 → ns.score = 8 →
        (∀ e ∈ bad, pyIn e ns.obs = false) →
        calc_cache_changes inv ≤ 1 → calc_cache_changes dsc ≤ 1 →
        ns.won = false → ns.lost = false →
        find_verb_in_list (verb_of_cmd cmd) ns.admissible_commands = false →
        calc_reward dsc inv ns os cmd bad = 4) := by
  constructor
  · intro dsc inv ns os cmd bad
    rw [calc_reward_decomp]
    rfl
  · intro dsc inv ns os cmd bad h5 h8 hbad hinv hdsc hwon hlost hadm
    rw [calc_reward_decomp]
    have h1 : score_term ns os = 3 := by
      rw [score_term, h5, h8]
      norm_num
    have h2 : bad_act_term bad ns = 0 := by
      unfold bad_act_term
      rw [if_neg]
      intro hc
      obtain ⟨e, he, hp⟩ := (bad_act_count_pos_iff bad ns).mp hc
      rw [hbad e he] at hp
      exact absurd hp (by simp)
    have h3 : loop_term dsc inv = change_reward := by
      simp only [loop_term]
      rw [if_pos (Or.inl (by exact_mod_cast hinv))]
    have h4 : terminal_term ns = 0 := by
      simp [terminal_term, hwon, hlost]
    have h5a : adm_term ns cmd = 0 := by
      simp [adm_term, hadm]
    rw [h1, h2, h3, h4, h5a]
    norm_num [change_reward]

/-- C8 witness: concrete neutral scenario with score delta 3 gives 4. -/
theorem spec_c8_witness :
    calc_reward [1, 2, 3, 4, 5, 6, 7, 8, 9, 10] [1, 2, 3, 4, 5, 6, 7, 8, 9, 10]
      { gs_base with score := 8 } { gs_base with score := 5 } "go north" [] = 4 := by
  exact spec_c8.2 [1, 2, 3, 4, 5, 6, 7, 8, 9, 10] [1, 2, 3, 4, 5, 6, 7, 8, 9, 10]
    { gs_base with score := 8 } { gs_base with score := 5 } "go north" []
    rfl rfl (by decide) (by decide) (by decide) rfl rfl (by decide)

/-- C9: the reward contains the terminal bonus/penalty as an additive term
(win adds 100, else a loss subtracts 100), and in the score-delta scenario
with a win the reward is exactly 104. -/
theorem spec_c9 :
    (∀ (dsc inv : List Int) (ns os : GameState) (cmd : String) (bad : List String),
      calc_reward dsc inv ns os cmd bad =
        score_term ns os + bad_act_term bad ns + loop_term dsc inv +
          (if ns.won then win_lose_value
           else if ns.lost then -win_lose_value else 0) + adm_term ns cmd)
    ∧ (∀ (dsc inv : List Int) (ns os : GameState) (cmd : String) (bad : List String),
        os.score = 5 → ns.score = 8 →
        (∀ e ∈ bad, pyIn e ns.obs = false) →
        calc_cache_changes inv ≤ 1 → calc_cache_changes dsc ≤ 1 →
        ns.won = true →
        find_verb_in_list (verb_of_cmd cmd) ns.admissible_commands = false →
        calc_reward dsc inv ns os cmd bad = 104) := by
  constructor
  · intro dsc inv ns os cmd bad
    rw [calc_reward_decomp]
    rfl
  · intro dsc inv ns os cmd bad h5 h8 hbad hinv hdsc hwon hadm
    rw [calc_reward_decomp]
    have h1 : score_term ns os = 3 := by
      rw [score_term, h5, h8]
      norm_num
    have h2 : bad_act_term bad ns = 0 := by
      unfold bad_act_term
      rw [if_neg]
      intro hc
      obtain ⟨e, he, hp⟩ := (bad_act_count_pos_iff bad ns).mp hc
      rw [hbad e he] at hp
      exact absurd hp (by simp)
    have h3 : loop_term dsc inv = change_reward := by
      simp only [loop_term]
      rw [if_pos (Or.inl (by exact_mod_cast hinv))]
    have h4 : terminal_term ns = win_lose_value := by
      simp [terminal_term, hwon]
    have h5a : adm_term ns cmd = 0 := by
      simp [adm_term, hadm]
    rw [h1, h2, h3, h4, h5a]
    norm_num [change_reward, win_lose_value]

/-- C9 witness: the winning neutral scenario gives 104. -/
theorem spec_c9_witness :
    calc_reward [1, 2, 3, 4, 5, 6, 7, 8, 9, 10] [1, 2, 3, 4, 5, 6, 7, 8, 9, 10]
      { gs_base with score := 8, won := true } { gs_base with score := 5 }
      "go north" [] = 104 := by
  exact spec_c9.2 [1, 2, 3, 4, 5, 6, 7, 8, 9, 10] [1, 2, 3, 4, 5, 6, 7, 8, 9, 10]
    { gs_base with score := 8, won := true } { gs_base with score := 5 } "go north" []
    rfl rfl (by decide) (by decide) (by decide) rfl (by decide)

/-- When the target character occurs in the list, find_char finds an index
whose prefix is exactly the characters before the first occurrence. -/
lemma find_char_spec (l : List Char) (c : Char) (h : c ∈ l) :
    ∃ i, find_char l c = some i ∧ l.take i = l.takeWhile (fun x => !(x == c)) := by
  induction l with
  | nil => simp at h
  | cons x xs ih =>
    by_cases hx : x = c
    · refine ⟨0, ?_, ?_⟩
      · simp [find_char, hx]
      · rw [List.take_zero, List.takeWhile_cons]
        simp [hx]
    · have hmem : c ∈ xs := by
        rcases List.mem_cons.mp h with h1 | h1
        · exact absurd h1.symm hx
        · exact h1
      obtain ⟨i, hf, ht⟩ := ih hmem
      refine ⟨i + 1, ?_, ?_⟩
      · simp [find_char, hx, hf]
      · rw [List.take_succ_cons, List.takeWhile_cons]
        have : (!(x == c)) = true := by simp [hx]
        rw [this]
        simp [ht]

/-- For a command containing a space, the slice cmd[: cmd.find(" ")] is the
longest prefix of characters before the first space. -/
lemma verb_of_cmd_eq_takeWhile (cmd : String) (h : ' ' ∈ cmd.data) :
    verb_of_cmd cmd = String.mk (cmd.data.takeWhile (fun c => !(c == ' '))) := by
  unfold verb_of_cmd py_find
  obtain ⟨i, hf, ht⟩ := find_char_spec cmd.data ' ' h
  rw [hf]
  show py_slice_to cmd (i : Int) = String.mk (cmd.data.takeWhile (fun c => !(c == ' ')))
  unfold py_slice_to
  rw [if_neg (by omega)]
  rw [Int.toNat_natCast]
  rw [ht]

/-- Every command produced by the flattened translator contains a space. -/
lemma conv_to_cmd_flat_space (verbs objs : List String) (i : Nat) (c : String)
    (hc : conv_to_cmd_flat verbs objs i = some c) : ' ' ∈ c.data := by
  have hmem : c ∈ list_verbobj verbs objs := List.get?_mem hc
  unfold list_verbobj at hmem
  rw [List.mem_bind] at hmem
  obtain ⟨v, hv, hc2⟩ := hmem
  rw [List.mem_map] at hc2
  obtain ⟨o, ho, rfl⟩ := hc2
  have hsp : (" " : String).data = [' '] := rfl
  simp [String.data_append, hsp]

/-- Every command produced by the unflattened translator contains a space. -/
lemma conv_to_cmd_pair_space (verbs objs : List String) (vi oi : Nat) (c : String)
    (hc : conv_to_cmd_pair verbs objs vi oi = some c) : ' ' ∈ c.data := by
  unfold conv_to_cmd_pair at hc
  cases hv : verbs.get? vi with
  | none =>
    rw [hv] at hc
    exact absurd hc (by simp)
  | some verb =>
    rw [hv] at hc
    have hsp : (" " : String).data = [' '] := rfl
    by_cases ho : oi = 0
    · simp only [ho, if_pos] at hc
      obtain rfl : verb ++ " " ++ "" = c := Option.some.inj hc
      simp [String.data_append, hsp]
    · simp only [if_neg ho] at hc
      cases hob : objs.get? oi with
      | none =>
        rw [hob] at hc
        exact absurd hc (by simp)
      | some obj =>
        rw [hob] at hc
        obtain rfl : verb ++ " " ++ obj = c := Option.some.inj hc
        simp [String.data_append, hsp]

/-- C6: every issued command contains a space in both translator modes; for
any command containing a space, the extracted verb token is the prefix
before the first space, and the admissibility bonus adds verb_in_adm
exactly when that token is contained in at least one admissible command. -/
theorem spec_c6 :
    (∀ (verbs objs : List String) (i : Nat) (c : String),
      conv_to_cmd_flat verbs objs i = some c → ' ' ∈ c.data)
    ∧ (∀ (verbs objs : List String) (vi oi : Nat) (c : String),
      conv_to_cmd_pair verbs objs vi oi = some c → ' ' ∈ c.data)
    ∧ ∀ (dsc inv : List Int) (ns os : GameState) (cmd : String)
    (bad : List String), ' ' ∈ cmd.data →
    verb_of_cmd cmd = String.mk (cmd.data.takeWhile (fun c => !(c == ' ')))
    ∧ ((∃ a ∈ ns.admissible_commands, pyIn (verb_of_cmd cmd) a = true) →
        calc_reward dsc inv ns os cmd bad =
          score_term ns os + bad_act_term bad ns + loop_term dsc inv +
            terminal_term ns + verb_in_adm)
    ∧ ((∀ a ∈ ns.admissible_commands, pyIn (verb_of_cmd cmd) a = false) →
        calc_reward dsc inv ns os cmd bad =
          score_term ns os + bad_act_term bad ns + loop_term dsc inv +
            terminal_term ns) := by
  refine ⟨conv_to_cmd_flat_space, conv_to_cmd_pair_space, ?_⟩
  intro dsc inv ns os cmd bad hsp
  refine ⟨verb_of_cmd_eq_takeWhile cmd hsp, ?_, ?_⟩
  · intro h
    rw [calc_reward_decomp]
    have hterm : adm_term ns cmd = verb_in_adm := by
      unfold adm_term
      rw [if_pos ((find_verb_in_list_iff (verb_of_cmd cmd)
        ns.admissible_commands).mpr h)]
    rw [hterm]
  · intro h
    rw [calc_reward_decomp]
    have hterm : adm_term ns cmd = 0 := by
      unfold adm_term
      rw [if_neg]
      intro hc
      obtain ⟨a, ha, hp⟩ := (find_verb_in_list_iff (verb_of_cmd cmd)
        ns.admissible_commands).mp hc
      rw [h a ha] at hp
      exact absurd hp (by simp)
    rw [hterm]
    ring

/-- C6 witness: a concrete translated command contains a space, and the verb
go of the command go north is contained in go east (bonus paid) but not in
take lamp (no bonus). -/
theorem spec_c6_witness :
    (' ' ∈ ("go" ++ " " ++ "north" : String).data)
    ∧ verb_of_cmd "go north" = String.mk ("go north".data.takeWhile (fun c => !(c == ' ')))
    ∧ calc_reward (List.replicate 10 0) (List.replicate 10 0)
        { gs_base with admissible_commands := ["go east"] } gs_base "go north" [] =
      score_term { gs_base with admissible_commands := ["go east"] } gs_base +
        bad_act_term [] { gs_base with admissible_commands := ["go east"] } +
        loop_term (List.replicate 10 0) (List.replicate 10 0) +
        terminal_term { gs_base with admissible_commands := ["go east"] } + verb_in_adm
    ∧ calc_reward (List.replicate 10 0) (List.replicate 10 0)
        { gs_base with admissible_commands := ["take lamp"] } gs_base "go north" [] =
      score_term { gs_base with admissible_commands := ["take lamp"] } gs_base +
        bad_act_term [] { gs_base with admissible_commands := ["take lamp"] } +
        loop_term (List.replicate 10 0) (List.replicate 10 0) +
        terminal_term { gs_base with admissible_commands := ["take lamp"] } := by
  refine ⟨?_, ?_, ?_, ?_⟩
  · exact spec_c6.1 ["go"] ["", "north"] 1 ("go" ++ " " ++ "north") rfl
  · exact (spec_c6.2.2 (List.replicate 10 0) (List.replicate 10 0)
      { gs_base with admissible_commands := ["go east"] } gs_base "go north" []
      (by decide)).1
  · exact (spec_c6.2.2 (List.replicate 10 0) (List.replicate 10 0)
      { gs_base with admissible_commands := ["go east"] } gs_base "go north" []
      (by decide)).2.1 (by decide)
  · exact (spec_c6.2.2 (List.replicate 10 0) (List.replicate 10 0)
      { gs_base with admissible_commands := ["take lamp"] } gs_base "go north" []
      (by decide)).2.2 (by decide)

/-- Three consecutive steps feeding the same new state, starting from the
freshly constructed all-sentinel buffers. -/
def three_turns (fp : String → Int) (os ns : GameState) (cmd : String)
    (bad : List String) : Int × List Int × List Int :=
  let s1 := step_reward_update fp (List.replicate 10 0) (List.replicate 10 0)
    os ns cmd bad
  let s2 := step_reward_update fp s1.2.1 s1.2.2 os ns cmd bad
  step_reward_update fp s2.2.1 s2.2.2 os ns cmd bad

/-- C1: after the new fingerprints are appended, the loop term adds
change_reward when either updated buffer holds its last entry only once,
and otherwise subtracts min of the two repeat counts minus one capped at
max_loop_pun; each repeat count is at least 1; and three consecutive
identical turns from the initial buffers contribute exactly -2 on the
third turn when every other term is neutral. -/
theorem spec_c1 :
    (∀ (fp : String → Int) (dsc inv : List Int) (os ns : GameState) (cmd : String)
        (bad : List String),
      (step_reward_update fp dsc inv os ns cmd bad).1 =
        score_term ns os + bad_act_term bad ns +
          (if (calc_cache_changes (cache_push inv (fp ns.inventory)) : Int) ≤ 1 ∨
              (calc_cache_changes (cache_push dsc (fp ns.description)) : Int) ≤ 1 then
            change_reward
          else
            -min ((calc_cache_changes (cache_push inv (fp ns.inventory)) : Int) - 1)
              (min ((calc_cache_changes (cache_push dsc (fp ns.description)) : Int) - 1)
                max_loop_pun)) +
          terminal_term ns + adm_term ns cmd)
    ∧ (∀ (dsc inv : List Int) (a b : Int), dsc ≠ [] → inv ≠ [] →
        1 ≤ calc_cache_changes (cache_push dsc a) ∧
        1 ≤ calc_cache_changes (cache_push inv b))
    ∧ (∀ (fp : String → Int) (os ns : GameState) (cmd : String) (bad : List String),
        fp ns.description ≠ 0 → fp ns.inventory ≠ 0 →
        ns.score = os.score →
        (∀ e ∈ bad, pyIn e ns.obs = false) →
        ns.won = false → ns.lost = false →
        find_verb_in_list (verb_of_cmd cmd) ns.admissible_commands = false →
        (three_turns fp os ns cmd bad).1 = -2) := by
  refine ⟨?_, ?_, ?_⟩
  · intro fp dsc inv os ns cmd bad
    show calc_reward (cache_push dsc (fp ns.description))
      (cache_push inv (fp ns.inventory)) ns os cmd bad = _
    rw [calc_reward_decomp]
    rfl
  · intro dsc inv a b hd hi
    constructor
    · apply calc_cache_changes_pos
      intro hc
      apply hd
      have hlen := cache_push_length dsc a
      rw [hc] at hlen
      exact List.length_eq_zero.mp hlen.symm
    · apply calc_cache_changes_pos
      intro hc
      apply hi
      have hlen := cache_push_length inv b
      rw [hc] at hlen
      exact List.length_eq_zero.mp hlen.symm
  · intro fp os ns cmd bad ha hb hsc hbad hwon hlost hadm
    set a := fp ns.description with hA
    set b := fp ns.inventory with hB
    have hd3 : cache_push (cache_push (cache_push (List.replicate 10 0) a) a) a =
        [0, 0, 0, 0, 0, 0, 0, a, a, a] := rfl
    have hi3 : cache_push (cache_push (cache_push (List.replicate 10 0) b) b) b =
        [0, 0, 0, 0, 0, 0, 0, b, b, b] := rfl
    have hna : (0 : Int) ≠ a := fun h => ha h.symm
    have hnb : (0 : Int) ≠ b := fun h => hb h.symm
    have hca : calc_cache_changes ([0, 0, 0, 0, 0, 0, 0, a, a, a] : List Int) = 3 := by
      unfold calc_cache_changes
      rw [show ([0, 0, 0, 0, 0, 0, 0, a, a, a] : List Int).getLastD 0 = a from rfl]
      simp [List.count_cons, hna]
    have hcb : calc_cache_changes ([0, 0, 0, 0, 0, 0, 0, b, b, b] : List Int) = 3 := by
      unfold calc_cache_changes
      rw [show ([0, 0, 0, 0, 0, 0, 0, b, b, b] : List Int).getLastD 0 = b from rfl]
      simp [List.count_cons, hnb]
    show calc_reward (cache_push (cache_push (cache_push (List.replicate 10 0) a) a) a)
      (cache_push (cache_push (cache_push (List.replicate 10 0) b) b) b)
      ns os cmd bad = -2
    rw [hd3, hi3, calc_reward_decomp]
    have h1 : score_term ns os = 0 := by
      simp [score_term, hsc]
    have h2 : bad_act_term bad ns = 0 := by
      unfold bad_act_term
      rw [if_neg]
      intro hc
      obtain ⟨e, he, hp⟩ := (bad_act_count_pos_iff bad ns).mp hc
      rw [hbad e he] at hp
      exact absurd hp (by simp)
    have h3 : terminal_term ns = 0 := by
      simp [terminal_term, hwon, hlost]
    have h4 : adm_term ns cmd = 0 := by
      simp [adm_term, hadm]
    have h5 : loop_term ([0, 0, 0, 0, 0, 0, 0, a, a, a] : List Int)
        ([0, 0, 0, 0, 0, 0, 0, b, b, b] : List Int) = -2 := by
      simp only [loop_term, hca, hcb]
      decide
    rw [h1, h2, h3, h4, h5]
    norm_num

/-- C1 witness: pushed singleton fingerprints have count at least one, and a
concrete fingerprint assignment repeated for three turns yields -2. -/
theorem spec_c1_witness :
    (1 ≤ calc_cache_changes (cache_push (List.replicate 10 0) 5) ∧
      1 ≤ calc_cache_changes (cache_push (List.replicate 10 0) 6))
    ∧ (three_turns (fun s => if s == "a plain room" then 5 else 6) gs_base gs_base
        "go north" []).1 = -2 := by
  refine ⟨?_, ?_⟩
  · exact spec_c1.2.1 (List.replicate 10 0) (List.replicate 10 0) 5 6
      (by decide) (by decide)
  · exact spec_c1.2.2 (fun s => if s == "a plain room" then 5 else 6) gs_base gs_base
      "go north" [] (by decide) (by decide) rfl (by decide) rfl rfl (by decide)
